import Mathlib

/-!
# Verification of the C6 Construction-File simulation engine

This file gives a shallow embedding, in Lean 4, of the sequence model and the
simulation algorithms of the C6-Sim/C6-Seq sources (PCR, restriction digestion,
Golden-Gate and Gibson assembly, and the construction-file executor), and proves
properties of those embeddings.  DNA sequences are represented as `List Char`;
JavaScript exceptions are represented by `Option`/`Except` error results.
-/

namespace C6

/-- Character-level complement table of `revcomp` (C6-Seq): Watson–Crick pairs
plus IUPAC ambiguity codes, case-preserving; `none` models the thrown error for
any other character. -/
def complementChar? (c : Char) : Option Char :=
  match c with
  | 'A' => some 'T' | 'T' => some 'A' | 'C' => some 'G' | 'G' => some 'C'
  | 'a' => some 't' | 't' => some 'a' | 'c' => some 'g' | 'g' => some 'c'
  | 'B' => some 'V' | 'D' => some 'H' | 'H' => some 'D' | 'K' => some 'M'
  | 'N' => some 'N' | 'R' => some 'Y' | 'S' => some 'S' | 'M' => some 'K'
  | 'V' => some 'B' | 'W' => some 'W' | 'Y' => some 'R'
  | 'b' => some 'v' | 'd' => some 'h' | 'h' => some 'd' | 'k' => some 'm'
  | 'n' => some 'n' | 'r' => some 'y' | 's' => some 's' | 'm' => some 'k'
  | 'v' => some 'b' | 'w' => some 'w' | 'y' => some 'r'
  | _ => none

/-- Here `mapOpt f l` applies a possibly-failing character map across a list,
failing if any element fails (the `Option`-monad `mapM`, written out so that
induction proofs are direct). -/
def mapOpt (f : Char → Option Char) : List Char → Option (List Char)
  | [] => some []
  | c :: cs =>
    match f c, mapOpt f cs with
    | some d, some ds => some (d :: ds)
    | _, _ => none

/-- Embeds `revcomp` of the JS module (C6-Seq.js): walk the sequence from its last
character to its first, emitting the complement of each; any unmapped character
throws.  Equivalently: complement each character of the reversed list. -/
def revcompJs (inseq : List Char) : Option (List Char) :=
  mapOpt complementChar? inseq.reverse

/-- Embeds `revcomp` of C6-Seq.gs: identical to the JS version except that an empty
input short-circuits to the junk string `"error on "` (the source returns
`"error on " + inseq` without throwing). -/
def revcomp (inseq : List Char) : Option (List Char) :=
  if inseq = [] then some ("error on ".data) else revcompJs inseq

/-- The strict A/T/C/G complement table used by `isPalindromic` in C6-Seq.gs
(uppercase only; anything else throws). -/
def complementATGC? (c : Char) : Option Char :=
  match c with
  | 'A' => some 'T' | 'T' => some 'A' | 'C' => some 'G' | 'G' => some 'C'
  | _ => none

/-- Embeds `isPalindromic` of C6-Seq.gs: validate that every character is A/T/C/G
(throw otherwise), then test whether the sequence equals its reverse
complement computed with the strict table. -/
def isPalindromic (seq : List Char) : Option Bool :=
  match mapOpt complementATGC? seq.reverse with
  | some rc => if seq.all (fun c => (complementATGC? c).isSome) then some (seq = rc) else none
  | none => none

/-- Embeds `isPalindromic` of the JS module (C6-Seq.js): `seq === revcomp(seq)` with
the full IUPAC table (throws on invalid characters). -/
def isPalindromicJs (seq : List Char) : Option Bool :=
  (revcompJs seq).map (fun rc => decide (seq = rc))

/-- The characters admitted by the `_regexDNA` pattern
`^[ACTGactgMRWSYKVHDBNXmrwsykvhdbnx-]+$` of C6-Seq. -/
def regexDNAChars : List Char := "ACTGactgMRWSYKVHDBNXmrwsykvhdbnx-".data

/-- ASCII upper-casing of one character (JS `toUpperCase`, restricted to the
Latin letters that can occur in validated sequence data). -/
def charUpper (c : Char) : Char :=
  if 'a' ≤ c ∧ c ≤ 'z' then Char.ofNat (c.toNat - 32) else c

/-- ASCII lower-casing of one character (JS `toLowerCase`, same restriction). -/
def charLower (c : Char) : Char :=
  if 'A' ≤ c ∧ c ≤ 'Z' then Char.ofNat (c.toNat + 32) else c

/-- Embeds `resolveToSeq` of C6-Seq: accept exactly the nonempty strings matching
`_regexDNA` and return them upper-cased; otherwise throw. -/
def resolveToSeq (seq : List Char) : Option (List Char) :=
  if seq ≠ [] ∧ seq.all (fun c => c ∈ regexDNAChars) then
    some (seq.map charUpper)
  else none

/-- Predicate `startsWith pat text`: `text` begins with `pat` (character-for-character). -/
def startsWith : List Char → List Char → Bool
  | [], _ => true
  | _ :: _, [] => false
  | p :: ps, t :: ts => p == t && startsWith ps ts

/-- JS `text.indexOf(pat)`: index of the first occurrence of `pat` in `text`,
`none` standing for the `-1` not-found result. -/
def indexOf? (pat : List Char) : List Char → Option Nat
  | [] => if startsWith pat [] then some 0 else none
  | c :: rest =>
    if startsWith pat (c :: rest) then some 0
    else (indexOf? pat rest).map (· + 1)

/-- JS `s.slice(a, b)` for non-negative arguments: the characters with indices
in `[a, b)`, both bounds clamped to the string length, empty if `b ≤ a`. -/
def jsSlice (s : List Char) (a b : Nat) : List Char :=
  (s.take b).drop a

/-- JS `s.substring(a, b)`: clamp both arguments to `[0, length]`, then swap
them if given in descending order. -/
def jsSubstring (s : List Char) (a b : Int) : List Char :=
  let n : Int := s.length
  let a' := max 0 (min a n)
  let b' := max 0 (min b n)
  (s.take (max a' b').toNat).drop (min a' b').toNat

/-- JS one-argument `s.substring(a)` (runs to the end of the string). -/
def jsSubstringFrom (s : List Char) (a : Int) : List Char :=
  jsSubstring s a s.length

/-- JS `<` on strings: lexicographic comparison by character code. -/
def lexLt : List Char → List Char → Bool
  | [], [] => false
  | [], _ :: _ => true
  | _ :: _, [] => false
  | a :: as, b :: bs => a < b || (a == b && lexLt as bs)

/-!
## Polynucleotide model (C6-Seq)
-/

/-- The `Polynucleotide` record: top-strand sequence, single-stranded 5'/3'
extensions, topology/chemistry flags and terminal modifications.  JS `null`
extensions are not distinguished from empty ones (no claim depends on it). -/
structure Polynucleotide where
  sequence : List Char
  ext5 : List Char
  ext3 : List Char
  isDoubleStranded : Bool
  isRNA : Bool
  isCircular : Bool
  mod_ext5 : String
  mod_ext3 : String
deriving Repr, DecidableEq

/-- The `Polynucleotide` constructor upper-cases the sequence and both
extensions on construction. -/
def mkPolynucleotide (sequence ext5 ext3 : List Char)
    (isDoubleStranded isRNA isCircular : Bool)
    (mod_ext5 mod_ext3 : String) : Polynucleotide :=
  { sequence := sequence.map charUpper
    ext5 := ext5.map charUpper
    ext3 := ext3.map charUpper
    isDoubleStranded := isDoubleStranded
    isRNA := isRNA
    isCircular := isCircular
    mod_ext5 := mod_ext5
    mod_ext3 := mod_ext3 }

/-- Embeds `polyrevcomp` of C6-Seq.gs: reverse-complement the sequence, swap the two
extensions (each reverse-complemented, preserving a leading `-` marker of a 3'
extension) and swap the terminal modifications.  Uses the JS-module `revcomp`
(imported by the simulator); a complement failure propagates as `none`. -/
def polyrevcomp (frag : Polynucleotide) : Option Polynucleotide := do
  let revseq ← revcompJs frag.sequence
  let revExt : List Char → Option (List Char) := fun ext =>
    match ext with
    | [] => some []
    | '-' :: tail => (revcompJs tail).map (fun r => '-' :: r)
    | e => revcompJs e
  let new5 ← revExt frag.ext3
  let new3 ← revExt frag.ext5
  some (mkPolynucleotide revseq new5 new3
    frag.isDoubleStranded frag.isRNA frag.isCircular frag.mod_ext3 frag.mod_ext5)

/-- The circular branch of `comparePolynucleotides`: search the lower-cased
sequence of `polyB` inside the doubled lower-cased sequence of `polyA`; on
failure reverse-complement `polyB` (which throws on an invalid character) and
search again; report whether either search hit. -/
def compareCircular (polyA polyB : Polynucleotide) : Option Bool :=
  let polyAseq := polyA.sequence.map charLower
  let polyBseq := polyB.sequence.map charLower
  let doubleAseq := polyAseq ++ polyAseq
  if (indexOf? polyBseq doubleAseq).isSome then some true
  else
    match polyrevcomp polyB with
    | none => none
    | some polyB' =>
      if (indexOf? (polyB'.sequence.map charLower) doubleAseq).isSome then some true
      else some false

/-- The linear branch of `comparePolynucleotides`: compare the lower-cased
sequences directly, or after reverse-complementing `polyB`; once the
orientation is fixed, the extensions and terminal modifications must match
exactly (the source's chain of early `return false` checks). -/
def compareLinear (polyA polyB : Polynucleotide) : Option Bool :=
  let polyAseq := polyA.sequence.map charLower
  let polyBseq := polyB.sequence.map charLower
  if polyAseq = polyBseq then
    some (polyA.ext5 = polyB.ext5 ∧ polyA.ext3 = polyB.ext3 ∧
      polyA.mod_ext5 = polyB.mod_ext5 ∧ polyA.mod_ext3 = polyB.mod_ext3)
  else
    match polyrevcomp polyB with
    | none => none
    | some polyB' =>
      if polyAseq = polyB'.sequence.map charLower then
        some (polyA.ext5 = polyB'.ext5 ∧ polyA.ext3 = polyB'.ext3 ∧
          polyA.mod_ext5 = polyB'.mod_ext5 ∧ polyA.mod_ext3 = polyB'.mod_ext3)
      else some false

/-- Embeds `comparePolynucleotides` of C6-Seq.gs.  Topology, RNA and strandedness
flags must agree exactly; then circular molecules go through the
doubled-sequence rotation test and linear ones through the direct/reoriented
comparison. -/
def comparePolynucleotides (polyA polyB : Polynucleotide) : Option Bool :=
  if polyA.isCircular ≠ polyB.isCircular then some false
  else if polyA.isRNA ≠ polyB.isRNA then some false
  else if polyA.isDoubleStranded ≠ polyB.isDoubleStranded then some false
  else if polyA.isCircular then compareCircular polyA polyB
  else compareLinear polyA polyB

/-!
## PCR simulator (C6-Sim)
-/

/-- Embeds `PCR` of C6-Sim: resolve the three inputs; anchor the last 18 bases of the
forward primer in the template (falling back once to the template's reverse
complement); rotate the template to start at that anchor; anchor the first 18
bases of the reverse-complemented reverse primer in the rotated template; the
product is the full forward primer, the rotated-template span strictly between
the two anchors, and the full reverse complement of the reverse primer. -/
def PCR (forwardSeq0 reverseSeq0 templateSeq0 : List Char) : Option (List Char) := do
  let forwardSeq ← resolveToSeq forwardSeq0
  let reverseSeq ← resolveToSeq reverseSeq0
  let templateSeq0' ← resolveToSeq templateSeq0
  let foranneal := jsSlice forwardSeq (forwardSeq.length - 18) forwardSeq.length
  let templateSeq ←
    match indexOf? foranneal templateSeq0' with
    | some _ => some templateSeq0'
    | none => revcompJs templateSeq0'
  let forwardMatchIndex ← indexOf? foranneal templateSeq
  let rotatedTemplate :=
    templateSeq.drop forwardMatchIndex ++ templateSeq.take forwardMatchIndex
  let reverseComp ← revcompJs reverseSeq
  let revanneal := reverseComp.take 18
  let reverseMatchIndex ← indexOf? revanneal rotatedTemplate
  some (forwardSeq ++ jsSlice rotatedTemplate 18 reverseMatchIndex ++ reverseComp)

/-!
## Restriction enzyme registry (C6-Sim)
-/

/-- One entry of the `simRestrictionEnzymes` table: recognition sequence and
the two signed cut offsets, measured from the end of the recognition site. -/
structure RestrictionEnzyme where
  recognitionSequence : List Char
  cut5 : Int
  cut3 : Int
deriving Repr, DecidableEq

/-- The fixed `simRestrictionEnzymes` registry of C6-Sim. -/
def simRestrictionEnzymes : List (String × RestrictionEnzyme) :=
  [("AarI", ⟨"CACCTGC".data, 4, 8⟩),
   ("BbsI", ⟨"GAAGAC".data, 2, 6⟩),
   ("BsaI", ⟨"GGTCTC".data, 1, 5⟩),
   ("BsmBI", ⟨"CGTCTC".data, 1, 5⟩),
   ("SapI", ⟨"GCTCTTC".data, 1, 4⟩),
   ("BseRI", ⟨"GAGGAG".data, 10, 8⟩),
   ("BamHI", ⟨"GGATCC".data, -5, -1⟩),
   ("BglII", ⟨"AGATCT".data, -5, -1⟩),
   ("EcoRI", ⟨"GAATTC".data, -5, -1⟩),
   ("XhoI", ⟨"CTCGAG".data, -5, -1⟩),
   ("SpeI", ⟨"ACTAGT".data, -5, -1⟩),
   ("XbaI", ⟨"TCTAGA".data, -5, -1⟩),
   ("PstI", ⟨"CTGCAG".data, -1, -5⟩)]

/-- Name lookup in the registry (`simRestrictionEnzymes[name]`). -/
def lookupEnzyme (name : String) : Option RestrictionEnzyme :=
  (simRestrictionEnzymes.find? (fun p => p.1 = name)).map Prod.snd

/-- Derived reverse complement of the recognition sequence, computed from the
table at initialization in the source.  Every registry recognition sequence is
valid DNA, so the `[]` default of `getD` is unreachable. -/
def RestrictionEnzyme.recognitionRC (e : RestrictionEnzyme) : List Char :=
  (revcompJs e.recognitionSequence).getD []

/-- Derived `isFivePrime` flag: the cut produces a 5' extension
iff `cut5 < cut3`. -/
def RestrictionEnzyme.isFivePrime (e : RestrictionEnzyme) : Bool :=
  e.cut5 < e.cut3

/-!
## Single-site cutter and digestion engine (C6-Sim)
-/

/-- The shared tail of `cutOnce`, once the single-stranded region
`[ssRegionStart, ssRegionEnd)` has been located: build the overhang (with its
`-` marker for a 3'-extension enzyme) and the one (circular input) or two
(linear input) product molecules, with 5'-phosphate marks on the new
termini. -/
def cutProducts (poly : Polynucleotide) (enzData : RestrictionEnzyme)
    (ssRegionStart ssRegionEnd : Int) : List Polynucleotide :=
  let seq := poly.sequence
  let stickyEnd :=
    (if !enzData.isFivePrime then ['-'] else []) ++
      jsSubstring seq ssRegionStart ssRegionEnd
  if poly.isCircular then
    [mkPolynucleotide (jsSubstringFrom seq ssRegionEnd ++ jsSubstring seq 0 ssRegionStart)
       stickyEnd stickyEnd poly.isDoubleStranded poly.isRNA false "phos5" "phos5"]
  else
    [mkPolynucleotide (jsSubstring seq 0 ssRegionStart) poly.ext5 stickyEnd
       poly.isDoubleStranded poly.isRNA false poly.mod_ext5 "phos5",
     mkPolynucleotide (jsSubstringFrom seq ssRegionEnd) stickyEnd poly.ext3
       poly.isDoubleStranded poly.isRNA false "phos5" poly.mod_ext3]

/-- Embeds `cutOnce` of C6-Sim, with the enzyme's registry entry passed directly
(the source looks the name up in the registry first).  Locates the recognition
sequence on the top strand, falling back to its reverse complement; `none`
models the `null` no-cut signal; the two cut coordinates are oriented by which
strand matched and by the extension direction of the enzyme. -/
def cutOnce (poly : Polynucleotide) (enzData : RestrictionEnzyme) :
    Option (List Polynucleotide) :=
  match indexOf? enzData.recognitionSequence poly.sequence,
        indexOf? enzData.recognitionRC poly.sequence with
  | none, none => none
  | some index, _ =>
    let base : Int := (index : Int) + enzData.recognitionSequence.length
    if enzData.isFivePrime then
      some (cutProducts poly enzData (base + enzData.cut5) (base + enzData.cut3))
    else
      some (cutProducts poly enzData (base + enzData.cut3) (base + enzData.cut5))
  | none, some indexRC =>
    if enzData.isFivePrime then
      some (cutProducts poly enzData ((indexRC : Int) - enzData.cut3)
        ((indexRC : Int) - enzData.cut5))
    else
      some (cutProducts poly enzData ((indexRC : Int) - enzData.cut5)
        ((indexRC : Int) - enzData.cut3))

/-- Try each enzyme of the list in order on one fragment, returning the
children of the first successful cut (`digest` validates all names before the
loop, so an unregistered name never reaches this point). -/
def tryCutWithEnzymes (enzList : List String) (poly : Polynucleotide) :
    Option (List Polynucleotide) :=
  match enzList with
  | [] => none
  | enz :: rest =>
    match lookupEnzyme enz with
    | none => tryCutWithEnzymes rest poly
    | some enzData =>
      match cutOnce poly enzData with
      | some frags => some frags
      | none => tryCutWithEnzymes rest poly

/-- One pass of the digestion worklist (the body of the `while` in `digest`):
scan the fragments in order; on the first fragment that cuts, append its
children to the output and restart the whole pass (the source's
`continue outer`, which abandons the not-yet-scanned rest of the worklist);
fragments that do not cut are carried over.  The flag reports whether a cut
happened. -/
def digestPass (enzList : List String) :
    List Polynucleotide → List Polynucleotide → List Polynucleotide × Bool
  | [], fragsOut => (fragsOut, false)
  | p :: rest, fragsOut =>
    match tryCutWithEnzymes enzList p with
    | some children => (fragsOut ++ children, true)
    | none => digestPass enzList rest (fragsOut ++ [p])

/-- Iterate `digestPass` to exhaustion.  Fuel bounds the number of passes;
each productive pass removes one cut site, so `sequence length + 2` passes
always suffice for the claims evaluated here. -/
def digestLoop (enzList : List String) : Nat → List Polynucleotide → List Polynucleotide
  | 0, frags => frags
  | fuel + 1, frags =>
    match digestPass enzList frags [] with
    | (newFrags, true) => digestLoop enzList fuel newFrags
    | (newFrags, false) => newFrags

/-- Accumulating tokenizer for `enzTokens` (current token held reversed). -/
def enzTokensAux : List Char → List Char → List String
  | [], acc => if acc.isEmpty then [] else [String.mk acc.reverse]
  | c :: rest, acc =>
    if c.isAlphanum then enzTokensAux rest (c :: acc)
    else if acc.isEmpty then enzTokensAux rest []
    else String.mk acc.reverse :: enzTokensAux rest []

/-- Tokenize the enzyme-list argument of `digest` on non-alphanumeric
separators, dropping empty tokens (the source's
`split(/[^A-Za-z0-9]+/)` plus the nonempty filter). -/
def enzTokens (enzymes : String) : List String :=
  enzTokensAux enzymes.data []

/-- V8-style stable insertion sort with a JS comparator (the sorted prefix is
scanned from its right end; an element is shifted while the comparator is
positive).  The accumulator holds the sorted prefix reversed. -/
def insRev (cmp : α → α → Int) (x : α) : List α → List α
  | [] => [x]
  | y :: ys => if cmp y x > 0 then y :: insRev cmp x ys else x :: y :: ys

/-- JS `Array.prototype.sort` as used in this code base (small arrays:
insertion sort, stable). -/
def sortJs (cmp : α → α → Int) (l : List α) : List α :=
  (l.foldl (fun acc x => insRev cmp x acc) []).reverse

/-- Embeds `_resolveToPoly`: an input is either an already-structured molecule (the
JSON branch) or a raw sequence, which becomes a default blunt hydroxyl
double-stranded linear molecule; anything else throws. -/
def resolveToPoly : Sum (List Char) Polynucleotide → Option Polynucleotide
  | .inr p => some p
  | .inl s =>
    if s ≠ [] ∧ s.all (fun c => c ∈ regexDNAChars) then
      some (mkPolynucleotide s [] [] true false false "hydroxyl" "hydroxyl")
    else none

/-- Embeds `digest` of C6-Sim: resolve the input, validate the enzyme names, cut to
completion, then select a fragment.  For a circular input the fragments are
first sorted by their start position in the original sequence (`indexOf`,
`-1` when the fragment spans the rotation point) and the wrap-around fragment
is moved to the back, renumbering the selection. -/
def digest (input : Sum (List Char) Polynucleotide) (enzymes : String)
    (fragselect : Option Nat) : Option Polynucleotide := do
  let seq ← resolveToPoly input
  let enzList := enzTokens enzymes
  if !(enzList.all (fun e => (lookupEnzyme e).isSome)) then
    none
  else do
    let fragsOut := digestLoop enzList (seq.sequence.length + 2) [seq]
    match fragselect with
    | none => none
    | some fragselect =>
      if fragselect < fragsOut.length then
        if seq.isCircular then
          let startPos : Polynucleotide → Int := fun f =>
            match indexOf? f.sequence seq.sequence with
            | some i => (i : Int)
            | none => -1
          let sorted := sortJs (fun a b => startPos a - startPos b) fragsOut
          match sorted with
          | [] => none
          | f0 :: restFrags =>
            if startPos f0 ≠ 0 then
              (restFrags ++ [f0]).get?
                (if fragselect = 0 then sorted.length - 1 else fragselect - 1)
            else
              sorted.get? fragselect
        else
          fragsOut.get? fragselect
      else
        none

/-!
## Gibson / homology-overlap assembly (C6-Sim)
-/

/-- Lift an `Option` result (a thrown JS error) into `Except` with a fixed
message. -/
def ofOption (msg : String) : Option α → Except String α
  | some a => .ok a
  | none => .error msg

/-- The fixed 20-base homology-arm length of `gibson`. -/
def HOMOLOGY_LENGTH : Nat := 20

/-- One round of candidate generation in `gibson`: for each fragment of the
working set take its 3'-terminal 20-base window and, for every *other*
fragment of the set (content inequality, per the JS `===` skip) in which that
window occurs, emit the merge of the first fragment with the tail of the
second beyond the matched window. -/
def gibsonCandidates (startList : List (List Char)) : List (List Char) :=
  startList.flatMap (fun seq1 =>
    let threePrime := jsSubstringFrom seq1 ((seq1.length : Int) - HOMOLOGY_LENGTH)
    startList.filterMap (fun seq2 =>
      if seq2 = seq1 then none
      else
        match indexOf? threePrime seq2 with
        | none => none
        | some startIndex =>
          some (seq1 ++ jsSubstringFrom seq2 ((startIndex : Int) + threePrime.length))))

/-- The convergence loop of `gibson`.  While more than one fragment remains:
candidate count equal to the working-set size marks the molecule circular and
drops the last candidate; a smaller count continues with the candidates; a
larger count is the ambiguity error.  Fuel bounds the rounds and is
unreachable at `0` since every continuing branch strictly shrinks the list. -/
def gibsonLoop (fuel : Nat) (startList : List (List Char)) (isCircular : Bool) :
    Except String (List (List Char) × Bool) :=
  if startList.length ≤ 1 then .ok (startList, isCircular)
  else
    match fuel with
    | 0 => .error "fuel exhausted"
    | fuel' + 1 =>
      let endList := gibsonCandidates startList
      if endList.length = startList.length then
        gibsonLoop fuel' endList.dropLast true
      else if endList.length < startList.length then
        gibsonLoop fuel' endList isCircular
      else
        .error "Products do not assembly correctly, multiply assembly junctions present"

/-- The final self-overlap collapse of `gibson` (the recircularization step):
find the first occurrence of the 3'-terminal 20-base window and drop
everything up to and including the 20 bases from that point.  The window is a
tail of the sequence, so `indexOf` always succeeds and the `getD` default is
unreachable. -/
def selfOverlapCollapse (outseq : List Char) : List Char :=
  let threePrime := jsSubstringFrom outseq ((outseq.length : Int) - HOMOLOGY_LENGTH)
  let startIndex := (indexOf? threePrime outseq).getD 0
  jsSubstringFrom outseq ((startIndex : Int) + HOMOLOGY_LENGTH)

/-- Embeds `gibson` of C6-Sim.  `check_circular` is the optional JS parameter: only
an explicit `false` disables the circularity requirement.  A single-input call
is marked circular unconditionally after the loop; a circular result undergoes
the final self-overlap collapse; a linear result is an error unless
`check_circular = false`. -/
def gibson (seqs0 : List (List Char)) (check_circular : Option Bool) :
    Except String (List Char) := do
  if seqs0.length = 0 then
    throw "Invalid input: expected non-empty array of DNA sequences"
  let seqs ← ofOption "Unrecognizable as sequence" (seqs0.mapM resolveToSeq)
  let checkcirc := check_circular ≠ some false
  let (startList, isCircular0) ← gibsonLoop seqs.length seqs false
  match startList with
  | [outseq] =>
    let isCircular := if seqs.length = 1 then true else isCircular0
    if isCircular then
      .ok (selfOverlapCollapse outseq)
    else if checkcirc then
      .error "Products do not assemble into a circular product.  If you are expecting a linear product, pass in check_circular = FALSE"
    else
      .ok outseq
  | _ => .error "Gibson assembly did not resolve to a single product"

/-!
## Golden-Gate assembly (C6-Sim `assemble`)
-/

/-- A Golden-Gate digestion fragment: internal body plus 5' and 3' sticky
ends. -/
structure GGFragment where
  fragment : List Char
  stickyEnd5 : List Char
  stickyEnd3 : List Char
deriving Repr, DecidableEq

/-- Number of occurrences of `pat` in `text` as counted by JS
`text.split(pat).length - 1` (non-overlapping, scanning left to right).
Fuel is the text length, enough since every match consumes at least one
character (registry recognition sequences are nonempty). -/
def splitCountAux (pat : List Char) : Nat → List Char → Nat
  | 0, _ => 0
  | fuel + 1, text =>
    match indexOf? pat text with
    | none => 0
    | some i => 1 + splitCountAux pat fuel (text.drop (i + pat.length))

/-- See `splitCountAux`. -/
def splitCount (pat text : List Char) : Nat :=
  splitCountAux pat (text.length + 1) text

/-- The per-sequence digestion of `assemble`: the sequence must contain
exactly one forward and one reverse-complement recognition site, forward
first; the cut offsets then delimit the body and the two sticky ends. -/
def cutForGG (enzymeDetails : RestrictionEnzyme) (sequence0 : List Char) :
    Option GGFragment := do
  let sequence ← resolveToSeq sequence0
  let restrictionSequence := enzymeDetails.recognitionSequence
  let revRestrictionSequence := enzymeDetails.recognitionRC
  let cut5 := enzymeDetails.cut5
  let cut3 := enzymeDetails.cut3
  let enzymeSite ← indexOf? restrictionSequence sequence
  let revEnzymeSite ← indexOf? revRestrictionSequence sequence
  if splitCount restrictionSequence sequence ≠ 1 then none
  else if splitCount revRestrictionSequence sequence ≠ 1 then none
  else if revEnzymeSite < enzymeSite then none
  else
    some { fragment := jsSubstring sequence
             ((enzymeSite : Int) + restrictionSequence.length + cut3)
             ((revEnzymeSite : Int) - cut3)
           stickyEnd5 := jsSubstring sequence
             ((enzymeSite : Int) + restrictionSequence.length + cut5)
             ((enzymeSite : Int) + restrictionSequence.length + cut3)
           stickyEnd3 := jsSubstring sequence
             ((revEnzymeSite : Int) - cut3) ((revEnzymeSite : Int) - cut5) }

/-- The comparator of the `digestionFragments.sort` call: compares one
fragment's 5' sticky end against the *other* fragment's 3' sticky end,
lexicographically. -/
def ggCompare (a b : GGFragment) : Int :=
  if a.stickyEnd5 = b.stickyEnd3 then 0
  else if lexLt a.stickyEnd5 b.stickyEnd3 then -1
  else 1

/-- Adjacent sticky ends match along the sorted chain. -/
def chainOk : List GGFragment → Bool
  | [] => true
  | [_] => true
  | a :: b :: rest => (a.stickyEnd3 == b.stickyEnd5) && chainOk (b :: rest)

/-- Embeds `assemble` of C6-Sim (with the trailing enzyme argument already popped
off).  An unregistered enzyme name relays to `gibson`.  Otherwise: digest each
sequence with `cutForGG`, sort by sticky ends, reject palindromic ends,
reject duplicated 5' or 3' ends, validate the closed chain, and concatenate
each fragment's 5' sticky end followed by its body. -/
def assemble (dnaBlobs : List (List Char)) (enzyme : String) :
    Except String (List Char) := do
  let dnaSequences ← ofOption "Unrecognizable as sequence"
    (dnaBlobs.mapM resolveToSeq)
  match lookupEnzyme enzyme with
  | none => gibson dnaSequences none
  | some enzymeDetails => do
    let digestionFragments ← ofOption "Enzyme site not found or not unique"
      (dnaSequences.mapM (cutForGG enzymeDetails))
    let sorted := sortJs ggCompare digestionFragments
    let _ ← ofOption "Palindromic sticky ends found in fragment"
      (sorted.mapM (fun f => do
        let b5 ← isPalindromicJs f.stickyEnd5
        let b3 ← isPalindromicJs f.stickyEnd3
        if b5 || b3 then none else some ()))
    if sorted.length > 1 ∧
        (sorted.any (fun f =>
          sorted.countP (fun g => g.stickyEnd5 = f.stickyEnd5) > 1) ∨
         sorted.any (fun f =>
          sorted.countP (fun g => g.stickyEnd3 = f.stickyEnd3) > 1)) then
      throw "Some fragments have the same sticky ends, which can lead to incorrect assemblies"
    if !chainOk sorted then
      throw "Sticky ends do not match between fragments"
    match sorted with
    | [] => throw "no fragments"
    | f0 :: rest =>
      if ((f0 :: rest).getLast (by simp)).stickyEnd3 ≠ f0.stickyEnd5 then
        throw "Sticky ends do not match between first and last fragments"
      .ok ((f0 :: rest).flatMap (fun f => f.stickyEnd5 ++ f.fragment))

/-!
## Construction-file executor (C6-Sim `simCF`)
-/

/-- One construction step, as consumed by `simCF`.  Operations without a
`switch` case in the source (Ligate, Blunt, unknown) are silently skipped and
are represented by `other`. -/
inductive CFStep where
  | pcr (forward_oligo reverse_oligo template output : String)
  | assembleStep (dnas : List String) (enzyme : String) (output : String)
  | digestStep (dna : String) (enzymes : List String) (fragSelect : Option Nat)
      (output : String)
  | transform (dna : String) (output : String)
  | other
deriving Repr, DecidableEq

/-- A construction file: ordered steps plus the declared name→sequence table
(`none` models an input JSON with no `sequences` member at all). -/
structure ConstructionFile where
  steps : List CFStep
  sequences : Option (List (String × List Char))
deriving Repr

/-- Embeds `lookupSequence` of `simCF`: a key resolves first to the *first* product
of an earlier step with that output name, then to the declared sequence table,
else throws naming the key.  A declared *empty* sequence is falsy in the JS
`if (foundSequence)` test and therefore also falls through to the throw. -/
def lookupSequence (products sequences : List (String × List Char))
    (key : String) : Except String (List Char) :=
  match products.find? (fun p => p.1 = key) with
  | some p => .ok p.2
  | none =>
    match sequences.find? (fun p => p.1 = key) with
    | some q =>
      if q.2 ≠ [] then .ok q.2
      else .error ("Missing sequence for key: " ++ key)
    | none => .error ("Missing sequence for key: " ++ key)

/-- Execute one step of `simCF` against the current product list, appending
the step's named product.  A `digest` product is stored by its sequence (the
source stores the JSON serialization of the selected fragment; only its
sequence data is observable to later steps through `resolveToSeq`). -/
def execStep (sequences : List (String × List Char))
    (products : List (String × List Char)) (step : CFStep) :
    Except String (List (String × List Char)) :=
  match step with
  | .pcr forward_oligo reverse_oligo template output => do
    let forwardOligoSeq ← lookupSequence products sequences forward_oligo
    let reverseOligoSeq ← lookupSequence products sequences reverse_oligo
    let templateSeq ← lookupSequence products sequences template
    let product ← ofOption "oligo does not exactly anneal to the template"
      (PCR forwardOligoSeq reverseOligoSeq templateSeq)
    .ok (products ++ [(output, product)])
  | .assembleStep dnas enzyme output => do
    let dnaSequences ← dnas.mapM (lookupSequence products sequences)
    let product ← assemble dnaSequences enzyme
    .ok (products ++ [(output, product)])
  | .digestStep dna enzymes fragSelect output => do
    let dnaSeq ← lookupSequence products sequences dna
    let product ← ofOption "Invalid fragselect provided"
      (digest (.inl dnaSeq) (String.intercalate "," enzymes) fragSelect)
    .ok (products ++ [(output, product.sequence)])
  | .transform dna output => do
    let dnaSeq ← lookupSequence products sequences dna
    .ok (products ++ [(output, dnaSeq)])
  | .other => .ok products

/-- The step loop of `simCF`: strictly in file order, threading the growing
product list. -/
def runSteps (sequences : List (String × List Char)) :
    List CFStep → List (String × List Char) →
    Except String (List (String × List Char))
  | [], products => .ok products
  | step :: rest, products => do
    let products' ← execStep sequences products step
    runSteps sequences rest products'

/-- The value returned by `simCF`: either the early-return error *message*
(an ordinary string result, not a thrown error) or the product table. -/
inductive SimCFResult where
  | errorMessage (msg : String)
  | table (rows : List (String × List Char))
deriving Repr, DecidableEq

/-- Embeds `simCF` of C6-Sim: a missing or empty sequence table short-circuits to an
error-message string; otherwise the steps are executed in order and the
products are returned as the output table (name/sequence rows). -/
def simCF (cfData : ConstructionFile) : Except String SimCFResult :=
  match cfData.sequences with
  | none =>
    .ok (.errorMessage "Error: Sequence data is missing. Please include sequence data in the input JSON.")
  | some sequences =>
    if sequences.isEmpty then
      .ok (.errorMessage "Error: Sequence data is missing. Please include sequence data in the input JSON.")
    else do
      let products ← runSteps sequences cfData.steps []
      .ok (.table products)

/-!
## Claim theorems
-/

/-- C1: For the forward primer `gacttGAATTCgcggccgctTCTAGAgTCCCTATCAGTGATAGAG`,
reverse primer `catcaACTAGTaGTGCTCAGTATCTCTATCAC` and template
`tccctatcagtgatagagattgacatccctatcagtgatagagatactgagcac`, the PCR simulator
returns exactly the 93-base product consisting of the full forward primer, the
rotated-template span strictly between the two 18-base anchors, and the full
reverse complement of the reverse primer. -/
theorem pcr_example_product :
    PCR "gacttGAATTCgcggccgctTCTAGAgTCCCTATCAGTGATAGAG".data
        "catcaACTAGTaGTGCTCAGTATCTCTATCAC".data
        "tccctatcagtgatagagattgacatccctatcagtgatagagatactgagcac".data =
      some "GACTTGAATTCGCGGCCGCTTCTAGAGTCCCTATCAGTGATAGAGATTGACATCCCTATCAGTGATAGAGATACTGAGCACTACTAGTTGATG".data := by
  decide

/-- C2: Golden-Gate `assemble` of the two given fragments with `BsaI` returns
exactly the 80-base concatenation, in chain order, of each fragment's 5'
sticky end followed by its body. -/
theorem assemble_goldengate_example :
    assemble
      ["ccaaaGGTCTCAGCTTTGATCGATTCAACCTACTTCCCCTTCATAATCGGTACTAGAGACCacgac".data,
       "GGTCTCATACTCAAAATTTACTGACTGGACATGGTCACCACTTAAGTAAGCTTTGAGACC".data]
      "BsaI" =
      Except.ok "GCTTTGATCGATTCAACCTACTTCCCCTTCATAATCGGTACTCAAAATTTACTGACTGGACATGGTCACCACTTAAGTAA".data := by
  rfl

/-- C3: Digestion-to-completion of the given 51-base circular molecule with
`EcoRI,BamHI` at fragment index 1 returns the fragment with sequence
`CTTTTTTTTTTTTTTTTTTTTTTTTTTTTG`, 5' overhang `AATT` and 3' overhang `GATC`. -/
theorem digest_example_fragment :
    (digest
      (.inr { sequence := "AAAAAGAATTCTTTTTTTTTTTTTTTTTTTTTTTTTTTTGGATCCGGGGG".data,
              ext5 := [], ext3 := [],
              isDoubleStranded := true, isRNA := false, isCircular := true,
              mod_ext5 := "", mod_ext3 := "" })
      "EcoRI,BamHI" (some 1)).map (fun p => (p.sequence, p.ext5, p.ext3)) =
      some ("CTTTTTTTTTTTTTTTTTTTTTTTTTTTTG".data, "AATT".data, "GATC".data) := by
  decide

/-!
## The complement table and `mapOpt` lemmas
-/

theorem complementChar?_inv {c d : Char} (h : complementChar? c = some d) :
    complementChar? d = some c := by
  unfold complementChar? at h
  split at h <;> first
  | (injection h with h; subst h; rfl)
  | (cases h)

theorem complementATGC?_sub {c : Char} (h : (complementATGC? c).isSome) :
    complementChar? c = complementATGC? c := by
  unfold complementATGC? at h
  split at h <;> first
  | rfl
  | simp at h

theorem mapOpt_congr {f g : Char → Option Char} :
    ∀ {s : List Char}, (∀ c ∈ s, f c = g c) → mapOpt f s = mapOpt g s := by
  intro s
  induction s with
  | nil => intro _; rfl
  | cons c cs ih =>
    intro h
    have hc : f c = g c := h c (List.mem_cons_self c cs)
    have hcs := ih (fun x hx => h x (List.mem_cons_of_mem c hx))
    simp [mapOpt, hc, hcs]

theorem mapOpt_isSome {f : Char → Option Char} :
    ∀ {s : List Char}, (∀ c ∈ s, (f c).isSome) → (mapOpt f s).isSome := by
  intro s
  induction s with
  | nil => intro _; rfl
  | cons c cs ih =>
    intro h
    have hc := h c (List.mem_cons_self c cs)
    have hcs := ih (fun x hx => h x (List.mem_cons_of_mem c hx))
    rcases hd : f c with _ | d
    · rw [hd] at hc; simp at hc
    · rcases hds : mapOpt f cs with _ | ds
      · rw [hds] at hcs; simp at hcs
      · simp [mapOpt, hd, hds]

theorem mapOpt_append {f : Char → Option Char} (s t : List Char) :
    mapOpt f (s ++ t) =
      match mapOpt f s, mapOpt f t with
      | some a, some b => some (a ++ b)
      | _, _ => none := by
  induction s with
  | nil =>
    simp [mapOpt]
    rcases mapOpt f t with _ | b <;> rfl
  | cons c cs ih =>
    rcases hd : f c with _ | d <;>
      rcases hds : mapOpt f cs with _ | ds <;>
        simp [mapOpt, hd, hds, ih] <;>
          rcases mapOpt f t with _ | b <;> rfl

theorem mapOpt_reverse {f : Char → Option Char} :
    ∀ s : List Char, mapOpt f s.reverse = (mapOpt f s).map List.reverse := by
  intro s
  induction s with
  | nil => rfl
  | cons c cs ih =>
    rw [List.reverse_cons, mapOpt_append]
    rcases hd : f c with _ | d <;>
      rcases hds : mapOpt f cs with _ | ds <;>
        simp_all [mapOpt, hd, hds]

theorem mapOpt_inv :
    ∀ {s t : List Char}, mapOpt complementChar? s = some t →
      mapOpt complementChar? t = some s := by
  intro s
  induction s with
  | nil =>
    intro t h
    simp [mapOpt] at h
    subst h; rfl
  | cons c cs ih =>
    intro t h
    rcases hd : complementChar? c with _ | d <;> rw [mapOpt, hd] at h
    · simp at h
    · rcases hds : mapOpt complementChar? cs with _ | ds <;> rw [hds] at h
      · simp at h
      · simp at h
        subst h
        rw [mapOpt, complementChar?_inv hd, ih hds]

/-- C7: on every non-empty sequence over the valid nucleotide alphabet
(including ambiguity codes, either case), `reverseComplement` is an
involution: applying it twice returns the sequence unchanged. -/
theorem revcomp_involutive (s : List Char) (h1 : s ≠ [])
    (h2 : ∀ c ∈ s, (complementChar? c).isSome) :
    (revcomp s).bind revcomp = some s := by
  have hrev : ∀ c ∈ s.reverse, (complementChar? c).isSome := by
    intro c hc; exact h2 c (List.mem_reverse.mp hc)
  rcases ht : mapOpt complementChar? s.reverse with _ | t
  · have := mapOpt_isSome hrev
    rw [ht] at this; simp at this
  · have hts : mapOpt complementChar? t = some s.reverse := mapOpt_inv ht
    have htne : t ≠ [] := by
      intro he
      subst he
      simp [mapOpt] at hts
      have : s = [] := by
        have := congrArg List.reverse hts
        simpa using this.symm
      exact h1 this
    have hfst : revcomp s = some t := by
      rw [revcomp, if_neg h1]; exact ht
    have hsnd : revcomp t = some s := by
      rw [revcomp, if_neg htne]
      show mapOpt complementChar? t.reverse = some s
      rw [mapOpt_reverse, hts]
      simp
    simp [hfst, hsnd]

/-- C7 witness: the involution evaluated at the mixed-case ambiguous sequence
`AcGtNrY`. -/
theorem revcomp_involutive_witness :
    (revcomp "AcGtNrY".data).bind revcomp = some "AcGtNrY".data :=
  revcomp_involutive "AcGtNrY".data (by decide) (by decide)

/-- C8: on every valid (non-empty, strict A/C/G/T) nucleotide sequence, the
palindromicity predicate agrees with the reverse-complement fixed-point test:
`isPalindromic s` returns exactly the truth value of `s = reverseComplement s`. -/
theorem isPalindromic_iff_revcomp_fixed (s : List Char) (h1 : s ≠ [])
    (h2 : ∀ c ∈ s, (complementATGC? c).isSome) :
    isPalindromic s = (revcomp s).map (fun t => decide (s = t)) := by
  have hrev : ∀ c ∈ s.reverse, (complementATGC? c).isSome := by
    intro c hc; exact h2 c (List.mem_reverse.mp hc)
  have hsame : mapOpt complementChar? s.reverse = mapOpt complementATGC? s.reverse :=
    mapOpt_congr (fun c hc => complementATGC?_sub (hrev c hc))
  rcases ht : mapOpt complementATGC? s.reverse with _ | rc
  · have := mapOpt_isSome hrev
    rw [ht] at this; simp at this
  · have hall : s.all (fun c => (complementATGC? c).isSome) := by
      rw [List.all_eq_true]
      intro c hc
      exact h2 c hc
    have hpal : isPalindromic s = some (decide (s = rc)) := by
      rw [isPalindromic, ht]
      show (if s.all (fun c => (complementATGC? c).isSome) then _ else none) = _
      rw [if_pos hall]
    have hrc : revcomp s = some rc := by
      rw [revcomp, if_neg h1]
      show mapOpt complementChar? s.reverse = some rc
      rw [hsame]; exact ht
    rw [hpal, hrc]
    rfl

/-- C8 witness: the EcoRI site `GAATTC` is palindromic and is a fixed point of
the reverse complement. -/
theorem isPalindromic_iff_revcomp_fixed_witness :
    isPalindromic "GAATTC".data =
      (revcomp "GAATTC".data).map (fun t => decide ("GAATTC".data = t)) :=
  isPalindromic_iff_revcomp_fixed "GAATTC".data (by decide) (by decide)

/-!
## Executor lemmas (C6, C9)
-/

/-- Every successful step extends the product list at its end, leaving the
results of earlier steps untouched. -/
theorem execStep_keeps {tbl ps ps1 : List (String × List Char)} {step : CFStep}
    (h : execStep tbl ps step = .ok ps1) : ps <+: ps1 := by
  cases step <;>
    simp only [execStep, bind, Except.bind] at h <;>
    (repeat' split at h) <;>
    first
    | (injection h with h; subst h;
       first
       | exact List.prefix_append ps _
       | exact List.prefix_refl ps)
    | (cases h)

/-- Lemma: `runSteps` executes a concatenation of step lists strictly in order:
the second list starts from the products of the first. -/
theorem runSteps_append (tbl : List (String × List Char)) (l1 l2 : List CFStep)
    (ps : List (String × List Char)) :
    runSteps tbl (l1 ++ l2) ps = (runSteps tbl l1 ps).bind (runSteps tbl l2) := by
  induction l1 generalizing ps with
  | nil => rfl
  | cons s l1 ih =>
    show runSteps tbl (s :: (l1 ++ l2)) ps = _
    rcases he : execStep tbl ps s with e | ps1 <;>
      simp [runSteps, bind, Except.bind, he, ih]

/-- Running any list of steps only ever appends products. -/
theorem runSteps_keeps {tbl : List (String × List Char)} {l : List CFStep}
    {ps ps' : List (String × List Char)} (h : runSteps tbl l ps = .ok ps') :
    ps <+: ps' := by
  induction l generalizing ps with
  | nil =>
    simp only [runSteps] at h
    injection h with h
    subst h
    exact List.prefix_refl ps
  | cons s l ih =>
    rcases he : execStep tbl ps s with e | ps1 <;>
      simp only [runSteps, bind, Except.bind, he] at h
    · cases h
    · exact (execStep_keeps he).trans (ih h)

/-- C6: the executor runs steps strictly in file order (a concatenation of
step lists is run sequentially, the later list starting from the earlier
products, and successful execution only appends to the product list); a
referenced name resolves first to the product of an earlier step with that
output name, otherwise to the declared sequence table, and fails with the
missing-sequence error naming the key when neither resolves. -/
theorem simCF_order_and_lookup :
    (∀ (tbl : List (String × List Char)) (l1 l2 : List CFStep)
       (ps : List (String × List Char)),
      runSteps tbl (l1 ++ l2) ps = (runSteps tbl l1 ps).bind (runSteps tbl l2))
    ∧ (∀ (tbl : List (String × List Char)) (l : List CFStep)
         (ps ps' : List (String × List Char)),
        runSteps tbl l ps = .ok ps' → ps <+: ps')
    ∧ (∀ (products tbl : List (String × List Char)) (key : String) p,
        products.find? (fun q => q.1 = key) = some p →
        lookupSequence products tbl key = .ok p.2)
    ∧ (∀ (products tbl : List (String × List Char)) (key : String) q,
        products.find? (fun r => r.1 = key) = none →
        tbl.find? (fun r => r.1 = key) = some q → q.2 ≠ [] →
        lookupSequence products tbl key = .ok q.2)
    ∧ (∀ (products tbl : List (String × List Char)) (key : String),
        products.find? (fun q => q.1 = key) = none →
        (∀ q ∈ tbl, q.1 ≠ key) →
        lookupSequence products tbl key =
          .error ("Missing sequence for key: " ++ key)) := by
  refine ⟨runSteps_append, fun _ _ _ _ h => runSteps_keeps h, ?_, ?_, ?_⟩
  · intro products tbl key p hp
    simp [lookupSequence, hp]
  · intro products tbl key q hp hq hne
    simp [lookupSequence, hp, hq, hne]
  · intro products tbl key hp htbl
    have : tbl.find? (fun r => r.1 = key) = none := by
      rw [List.find?_eq_none]
      intro q hq
      simp [htbl q hq]
    simp [lookupSequence, hp, this]

/-- C6 witness: the order/lookup facts evaluated at a concrete table, step
list and product list. -/
theorem simCF_order_and_lookup_witness :
    runSteps [("t", "ACGT".data)]
        ([CFStep.transform "t" "u"] ++ [CFStep.transform "u" "v"]) [] =
      (runSteps [("t", "ACGT".data)] [CFStep.transform "t" "u"] []).bind
        (runSteps [("t", "ACGT".data)] [CFStep.transform "u" "v"]) ∧
    lookupSequence [("u", "ACGT".data)] [("u", "TTTT".data)] "u" =
      .ok "ACGT".data ∧
    lookupSequence [] [("t", "ACGT".data)] "t" = .ok "ACGT".data ∧
    lookupSequence [] [("t", "ACGT".data)] "zz" =
      .error ("Missing sequence for key: " ++ "zz") := by
  refine ⟨simCF_order_and_lookup.1 _ _ _ _,
    simCF_order_and_lookup.2.2.1 _ _ _ ("u", "ACGT".data) (by decide),
    simCF_order_and_lookup.2.2.2.1 _ _ _ ("t", "ACGT".data) rfl rfl (by decide),
    simCF_order_and_lookup.2.2.2.2 _ _ _ rfl (by decide)⟩

/-- C9: a construction file whose declared sequence table is missing or empty
makes `simCF` return the error-message string as its ordinary result (no
thrown error, no product table), whatever the steps are. -/
theorem simCF_missing_sequences (cf : ConstructionFile)
    (h : cf.sequences = none ∨ cf.sequences = some []) :
    simCF cf = .ok (.errorMessage
      "Error: Sequence data is missing. Please include sequence data in the input JSON.") := by
  rcases h with h | h <;> simp [simCF, h]

/-- C9 witness: a one-step PCR construction file with no sequence table. -/
theorem simCF_missing_sequences_witness :
    simCF { steps := [CFStep.pcr "f" "r" "t" "p"], sequences := none } =
      .ok (.errorMessage
        "Error: Sequence data is missing. Please include sequence data in the input JSON.") :=
  simCF_missing_sequences _ (Or.inl rfl)

/-!
## Gibson round structure (C4)
-/

/-- C4: in every round of the homology-overlap loop over a working set of more
than one fragment: a candidate count equal to the round's starting count drops
the last candidate and marks the result circular; a smaller count continues
with the candidates as the new working set; a larger count fails with the
ambiguity error.  And a call with a single input sequence is always treated as
self-circularizing: it returns the final self-overlap collapse of the resolved
sequence, whatever `check_circular` is. -/
theorem gibson_rounds_and_single :
    (∀ (fuel : Nat) (startList : List (List Char)) (circ : Bool),
      1 < startList.length →
      ((gibsonCandidates startList).length = startList.length →
        gibsonLoop (fuel + 1) startList circ =
          gibsonLoop fuel (gibsonCandidates startList).dropLast true) ∧
      ((gibsonCandidates startList).length < startList.length →
        gibsonLoop (fuel + 1) startList circ =
          gibsonLoop fuel (gibsonCandidates startList) circ) ∧
      (startList.length < (gibsonCandidates startList).length →
        gibsonLoop (fuel + 1) startList circ =
          .error "Products do not assembly correctly, multiply assembly junctions present"))
    ∧ (∀ (s s' : List Char), resolveToSeq s = some s' → ∀ cc : Option Bool,
        gibson [s] cc = .ok (selfOverlapCollapse s')) := by
  constructor
  · intro fuel startList circ hlen
    have hgt : ¬ startList.length ≤ 1 := by omega
    refine ⟨?_, ?_, ?_⟩ <;> intro hcmp <;> rw [gibsonLoop, if_neg hgt] <;>
      show (if (gibsonCandidates startList).length = startList.length
            then gibsonLoop fuel (gibsonCandidates startList).dropLast true
            else if (gibsonCandidates startList).length < startList.length
            then gibsonLoop fuel (gibsonCandidates startList) circ
            else .error "Products do not assembly correctly, multiply assembly junctions present") = _
    · rw [if_pos hcmp]
    · rw [if_neg (by omega), if_pos hcmp]
    · rw [if_neg (by omega), if_neg (by omega)]
  · intro s s' hres cc
    simp [gibson, List.mapM.loop, hres, ofOption, bind, Except.bind,
      pure, Except.pure, gibsonLoop]

/-- C4 witness: one circularizing round on two 40-base fragments that each
carry the other's 20-base terminal window, and the single-input
self-circularization on `acgt`. -/
theorem gibson_rounds_and_single_witness :
    gibsonLoop 1 ["AAAAAAAAAACCCCCCCCCCGGGGGGGGGGTTTTTTTTTT".data,
                  "GGGGGGGGGGTTTTTTTTTTAAAAAAAAAACCCCCCCCCC".data] false =
      gibsonLoop 0
        (gibsonCandidates ["AAAAAAAAAACCCCCCCCCCGGGGGGGGGGTTTTTTTTTT".data,
                           "GGGGGGGGGGTTTTTTTTTTAAAAAAAAAACCCCCCCCCC".data]).dropLast
        true ∧
    gibson ["acgt".data] none = .ok (selfOverlapCollapse "ACGT".data) :=
  ⟨(gibson_rounds_and_single.1 0
      ["AAAAAAAAAACCCCCCCCCCGGGGGGGGGGTTTTTTTTTT".data,
       "GGGGGGGGGGTTTTTTTTTTAAAAAAAAAACCCCCCCCCC".data] false (by decide)).1
      (by decide),
   gibson_rounds_and_single.2 "acgt".data "ACGT".data (by decide) none⟩

/-!
## Overhang recording by the single-site cutter (C10)
-/

theorem charUpper_dash : charUpper '-' = '-' := by decide

theorem stickyEnd_map (fp : Bool) (sp : List Char) :
    ((if !fp then ['-'] else []) ++ sp).map charUpper =
      (if fp then [] else ['-']) ++ sp.map charUpper := by
  cases fp <;> simp [charUpper_dash]

theorem cutProducts_marking (poly : Polynucleotide) (enzData : RestrictionEnzyme)
    (a b : Int) :
    ∃ span : List Char,
      (poly.isCircular = true → ∃ p, cutProducts poly enzData a b = [p] ∧
        p.ext5 = (if enzData.isFivePrime then [] else ['-']) ++ span ∧
        p.ext3 = (if enzData.isFivePrime then [] else ['-']) ++ span) ∧
      (poly.isCircular = false → ∃ l r, cutProducts poly enzData a b = [l, r] ∧
        l.ext3 = (if enzData.isFivePrime then [] else ['-']) ++ span ∧
        r.ext5 = (if enzData.isFivePrime then [] else ['-']) ++ span ∧
        l.ext5 = poly.ext5.map charUpper ∧ r.ext3 = poly.ext3.map charUpper) := by
  refine ⟨(jsSubstring poly.sequence a b).map charUpper, ?_, ?_⟩
  · intro hc
    unfold cutProducts
    rw [hc]
    simp only [if_true]
    exact ⟨_, rfl, stickyEnd_map enzData.isFivePrime _,
      stickyEnd_map enzData.isFivePrime _⟩
  · intro hc
    unfold cutProducts
    rw [hc]
    simp only [Bool.false_eq_true, if_false]
    exact ⟨_, _, rfl, stickyEnd_map enzData.isFivePrime _,
      stickyEnd_map enzData.isFivePrime _, rfl, rfl⟩

/-- C10: whenever the single-site cutter produces output, there is a single
single-stranded span such that a 3'-extension enzyme (`cut5` not less than
`cut3`, i.e. `isFivePrime` false, e.g. PstI) records the overhang on the new
termini as the span prefixed with `-`, while a 5'-extension enzyme records the
bare span — in the circular case on both `ext5` and `ext3` of the single
product, in the linear case on the left product's `ext3` and the right
product's `ext5`, the outer termini keeping the input molecule's
extensions. -/
theorem cutOnce_overhang_marking (enzData : RestrictionEnzyme)
    (poly : Polynucleotide) (frags : List Polynucleotide)
    (h : cutOnce poly enzData = some frags) :
    ∃ span : List Char,
      (poly.isCircular = true → ∃ p, frags = [p] ∧
        p.ext5 = (if enzData.isFivePrime then [] else ['-']) ++ span ∧
        p.ext3 = (if enzData.isFivePrime then [] else ['-']) ++ span) ∧
      (poly.isCircular = false → ∃ l r, frags = [l, r] ∧
        l.ext3 = (if enzData.isFivePrime then [] else ['-']) ++ span ∧
        r.ext5 = (if enzData.isFivePrime then [] else ['-']) ++ span ∧
        l.ext5 = poly.ext5.map charUpper ∧ r.ext3 = poly.ext3.map charUpper) := by
  unfold cutOnce at h
  split at h <;> (try split at h) <;>
    first
    | (injection h with h; subst h; exact cutProducts_marking poly enzData _ _)
    | (cases h)

/-- C10 witness: PstI (a 3'-extension cutter) applied to the circular molecule
`AACTGCAGTT`; the single product carries the `-TGCA` overhang on both
termini. -/
theorem cutOnce_overhang_marking_witness :
    ∃ span : List Char,
      ((⟨"AACTGCAGTT".data, [], [], true, false, true, "", ""⟩ :
          Polynucleotide).isCircular = true →
        ∃ p, [(⟨"GTTAAC".data, "-TGCA".data, "-TGCA".data, true, false, false,
                "phos5", "phos5"⟩ : Polynucleotide)] = [p] ∧
          p.ext5 = (if (RestrictionEnzyme.mk "CTGCAG".data (-1) (-5)).isFivePrime
            then [] else ['-']) ++ span ∧
          p.ext3 = (if (RestrictionEnzyme.mk "CTGCAG".data (-1) (-5)).isFivePrime
            then [] else ['-']) ++ span) ∧
      ((⟨"AACTGCAGTT".data, [], [], true, false, true, "", ""⟩ :
          Polynucleotide).isCircular = false →
        ∃ l r, [(⟨"GTTAAC".data, "-TGCA".data, "-TGCA".data, true, false, false,
                  "phos5", "phos5"⟩ : Polynucleotide)] = [l, r] ∧
          l.ext3 = (if (RestrictionEnzyme.mk "CTGCAG".data (-1) (-5)).isFivePrime
            then [] else ['-']) ++ span ∧
          r.ext5 = (if (RestrictionEnzyme.mk "CTGCAG".data (-1) (-5)).isFivePrime
            then [] else ['-']) ++ span ∧
          l.ext5 = (⟨"AACTGCAGTT".data, [], [], true, false, true, "", ""⟩ :
            Polynucleotide).ext5.map charUpper ∧
          r.ext3 = (⟨"AACTGCAGTT".data, [], [], true, false, true, "", ""⟩ :
            Polynucleotide).ext3.map charUpper) :=
  cutOnce_overhang_marking (RestrictionEnzyme.mk "CTGCAG".data (-1) (-5))
    ⟨"AACTGCAGTT".data, [], [], true, false, true, "", ""⟩
    [⟨"GTTAAC".data, "-TGCA".data, "-TGCA".data, true, false, false,
      "phos5", "phos5"⟩]
    (by decide)

/-!
## Rotational equivalence of circular molecules (C5)
-/

/-- The fifteen uppercase IUPAC nucleotide codes: the canonical alphabet of a
stored sequence. -/
def validUpper : List Char := "ACGTBDHKMNRSVWY".data

/-- Rotation relation: `x` is a rotation of `y`: some block decomposition of `y` appears in `x`
with its two blocks swapped. -/
def isRotationOf (x y : List Char) : Prop :=
  ∃ u v : List Char, y = u ++ v ∧ x = v ++ u

theorem isRotationOf_length {x y : List Char} (h : isRotationOf x y) :
    x.length = y.length := by
  rcases h with ⟨u, v, hy, hx⟩
  subst hy
  subst hx
  simp [Nat.add_comm]

theorem validUpper_comp : ∀ c ∈ validUpper,
    (complementChar? c).isSome ∧ (complementChar? c).getD 'A' ∈ validUpper := by
  decide

theorem validUpper_upper : ∀ c ∈ validUpper, charUpper c = c := by decide

theorem validUpper_lower_inj : ∀ c ∈ validUpper, ∀ d ∈ validUpper,
    charLower c = charLower d → c = d := by decide

theorem mapOpt_length {f : Char → Option Char} :
    ∀ {s t : List Char}, mapOpt f s = some t → t.length = s.length := by
  intro s
  induction s with
  | nil =>
    intro t h
    simp [mapOpt] at h
    subst h
    rfl
  | cons c cs ih =>
    intro t h
    rcases hd : f c with _ | d <;> rw [mapOpt, hd] at h
    · cases h
    · rcases hds : mapOpt f cs with _ | ds <;> rw [hds] at h
      · cases h
      · injection h with h
        subst h
        simp [ih hds]

theorem mapOpt_valid :
    ∀ {s t : List Char}, mapOpt complementChar? s = some t →
      (∀ c ∈ s, c ∈ validUpper) → ∀ d ∈ t, d ∈ validUpper := by
  intro s
  induction s with
  | nil =>
    intro t h _
    simp [mapOpt] at h
    subst h
    simp
  | cons c cs ih =>
    intro t h hs
    rcases hd : complementChar? c with _ | d <;> rw [mapOpt, hd] at h
    · cases h
    · rcases hds : mapOpt complementChar? cs with _ | ds <;> rw [hds] at h
      · cases h
      · injection h with h
        subst h
        intro e he
        rcases List.mem_cons.mp he with he | he
        · subst he
          have hc := validUpper_comp c (hs c (List.mem_cons_self c cs))
          rw [hd] at hc
          exact hc.2
        · exact ih hds (fun x hx => hs x (List.mem_cons_of_mem c hx)) e he

theorem revcompJs_some_of_valid {s : List Char}
    (hs : ∀ c ∈ s, c ∈ validUpper) : ∃ t, revcompJs s = some t := by
  have h : (mapOpt complementChar? s.reverse).isSome :=
    mapOpt_isSome (fun c hc => (validUpper_comp c (hs c (List.mem_reverse.mp hc))).1)
  exact Option.isSome_iff_exists.mp h

theorem revcompJs_valid {s t : List Char} (h : revcompJs s = some t)
    (hs : ∀ c ∈ s, c ∈ validUpper) : ∀ d ∈ t, d ∈ validUpper :=
  mapOpt_valid h (fun c hc => hs c (List.mem_reverse.mp hc))

theorem revcompJs_inv {s t : List Char} (h : revcompJs s = some t) :
    revcompJs t = some s := by
  have hts := mapOpt_inv h
  unfold revcompJs
  rw [mapOpt_reverse, hts]
  simp

theorem revcompJs_length {s t : List Char} (h : revcompJs s = some t) :
    t.length = s.length := by
  have := mapOpt_length h
  simpa using this

theorem mapOpt_append_some {f : Char → Option Char} {s t r : List Char}
    (h : mapOpt f (s ++ t) = some r) :
    ∃ a b, mapOpt f s = some a ∧ mapOpt f t = some b ∧ r = a ++ b := by
  rcases hs : mapOpt f s with _ | a <;> rcases ht : mapOpt f t with _ | b <;>
    rw [mapOpt_append, hs, ht] at h <;> try cases h
  exact ⟨a, b, rfl, rfl, rfl⟩

theorem revcompJs_extract {u v r : List Char} (h : revcompJs (u ++ v) = some r) :
    ∃ ru rv, revcompJs u = some ru ∧ revcompJs v = some rv ∧ r = rv ++ ru := by
  unfold revcompJs at h ⊢
  rw [List.reverse_append] at h
  rcases mapOpt_append_some h with ⟨a, b, ha, hb, hr⟩
  exact ⟨b, a, hb, ha, hr⟩

theorem isRotationOf_revcompJs {x y rx ry : List Char}
    (hx : revcompJs x = some rx) (hy : revcompJs y = some ry)
    (h : isRotationOf x y) : isRotationOf rx ry := by
  rcases h with ⟨u, v, hyuv, hxvu⟩
  subst hyuv
  subst hxvu
  rcases revcompJs_extract hx with ⟨rv, ru, hrv, hru, hrx⟩
  rcases revcompJs_extract hy with ⟨ru', rv', hru', hrv', hry⟩
  rw [hru] at hru'
  injection hru' with e1
  rw [hrv] at hrv'
  injection hrv' with e2
  subst e1
  subst e2
  exact ⟨rv, ru, hry, hrx⟩

theorem mapUpper_id {l : List Char} (h : ∀ c ∈ l, c ∈ validUpper) :
    l.map charUpper = l := by
  induction l with
  | nil => rfl
  | cons c cs ih =>
    simp only [List.map_cons]
    rw [validUpper_upper c (h c (List.mem_cons_self c cs)),
      ih (fun x hx => h x (List.mem_cons_of_mem c hx))]

theorem mapLower_inj :
    ∀ {x y : List Char}, (∀ c ∈ x, c ∈ validUpper) → (∀ c ∈ y, c ∈ validUpper) →
      x.map charLower = y.map charLower → x = y := by
  intro x
  induction x with
  | nil =>
    intro y _ _ h
    cases y with
    | nil => rfl
    | cons d ds => simp at h
  | cons c cs ih =>
    intro y hx hy h
    cases y with
    | nil => simp at h
    | cons d ds =>
      simp only [List.map_cons, List.cons.injEq] at h
      have hcd := validUpper_lower_inj c (hx c (List.mem_cons_self c cs))
        d (hy d (List.mem_cons_self d ds)) h.1
      rw [hcd, ih (fun e he => hx e (List.mem_cons_of_mem c he))
        (fun e he => hy e (List.mem_cons_of_mem d he)) h.2]

theorem isRotationOf_map (f : Char → Char) {x y : List Char}
    (h : isRotationOf x y) : isRotationOf (x.map f) (y.map f) := by
  rcases h with ⟨u, v, hy, hx⟩
  exact ⟨u.map f, v.map f, by rw [hy, List.map_append], by rw [hx, List.map_append]⟩

theorem isRotationOf_of_map_lower {x y : List Char}
    (hx : ∀ c ∈ x, c ∈ validUpper) (hy : ∀ c ∈ y, c ∈ validUpper)
    (h : isRotationOf (x.map charLower) (y.map charLower)) : isRotationOf x y := by
  rcases h with ⟨u, v, hyuv, hxvu⟩
  have hk : u.length ≤ y.length := by
    have := congrArg List.length hyuv
    simp at this
    omega
  refine ⟨y.take u.length, y.drop u.length, (List.take_append_drop _ y).symm, ?_⟩
  have hmemdt : ∀ c ∈ y.drop u.length ++ y.take u.length, c ∈ validUpper := by
    intro c hc
    rcases List.mem_append.mp hc with hc | hc
    · exact hy c (List.mem_of_mem_drop hc)
    · exact hy c (List.mem_of_mem_take hc)
  apply mapLower_inj hx hmemdt
  have hu : (y.map charLower).take u.length = u := by
    rw [hyuv]
    exact List.take_left u v
  have hv : (y.map charLower).drop u.length = v := by
    rw [hyuv]
    exact List.drop_left u v
  calc x.map charLower = v ++ u := hxvu
    _ = (y.map charLower).drop u.length ++ (y.map charLower).take u.length := by
        rw [hu, hv]
    _ = (y.drop u.length).map charLower ++ (y.take u.length).map charLower := by
        rw [List.map_take, List.map_drop]
    _ = (y.drop u.length ++ y.take u.length).map charLower := by
        rw [List.map_append]

theorem startsWith_iff {p t : List Char} :
    startsWith p t = true ↔ ∃ r, t = p ++ r := by
  induction p generalizing t with
  | nil =>
    constructor
    · intro _
      exact ⟨t, rfl⟩
    · intro _
      rfl
  | cons c cs ih =>
    cases t with
    | nil =>
      simp [startsWith]
    | cons d ds =>
      simp only [startsWith, Bool.and_eq_true, beq_iff_eq]
      constructor
      · rintro ⟨hcd, hs⟩
        rcases ih.mp hs with ⟨r, hr⟩
        refine ⟨r, ?_⟩
        rw [← hcd, hr]
        rfl
      · rintro ⟨r, hr⟩
        injection hr with h1 h2
        exact ⟨h1.symm, ih.mpr ⟨r, h2⟩⟩

theorem indexOf?_eq_zero {pat text : List Char}
    (h : startsWith pat text = true) : indexOf? pat text = some 0 := by
  cases text <;> simp [indexOf?, h]

theorem indexOf?_isSome_of_decomp {pat : List Char} :
    ∀ (u v text : List Char), text = u ++ pat ++ v → (indexOf? pat text).isSome := by
  intro u
  induction u with
  | nil =>
    intro v text h
    subst h
    rw [indexOf?_eq_zero (startsWith_iff.mpr ⟨v, by simp⟩)]
    rfl
  | cons c u ih =>
    intro v text h
    subst h
    show (indexOf? pat (c :: (u ++ pat ++ v))).isSome = true
    rw [indexOf?]
    by_cases hs : startsWith pat (c :: (u ++ pat ++ v)) = true
    · rw [if_pos hs]
      rfl
    · rw [if_neg hs]
      have hrec := ih v (u ++ pat ++ v) rfl
      rcases hi : indexOf? pat (u ++ pat ++ v) with _ | i
      · rw [hi] at hrec
        simp at hrec
      · rfl

theorem indexOf?_isSome_decomp {pat : List Char} :
    ∀ {text : List Char}, (indexOf? pat text).isSome → ∃ u v, text = u ++ pat ++ v := by
  intro text
  induction text with
  | nil =>
    intro h
    rw [indexOf?] at h
    by_cases hs : startsWith pat [] = true
    · rcases startsWith_iff.mp hs with ⟨r, hr⟩
      exact ⟨[], r, hr⟩
    · rw [if_neg hs] at h
      cases h
  | cons c rest ih =>
    intro h
    rw [indexOf?] at h
    by_cases hs : startsWith pat (c :: rest) = true
    · rcases startsWith_iff.mp hs with ⟨r, hr⟩
      exact ⟨[], r, hr⟩
    · rw [if_neg hs] at h
      have h' : (indexOf? pat rest).isSome := by
        rcases hi : indexOf? pat rest with _ | i <;> rw [hi] at h
        · cases h
        · rfl
      rcases ih h' with ⟨u, v, huv⟩
      exact ⟨c :: u, v, by simp [huv]⟩

theorem substring_doubled_iff {x y : List Char} (hlen : x.length = y.length) :
    (indexOf? x (y ++ y)).isSome ↔ isRotationOf x y := by
  constructor
  · intro h
    rcases indexOf?_isSome_decomp h with ⟨u, v, huv⟩
    have huv' : y ++ y = u ++ (x ++ v) := by rw [huv, List.append_assoc]
    obtain ⟨k, hk0⟩ : ∃ k, u.length = k := ⟨u.length, rfl⟩
    have hk : k ≤ y.length := by
      have := congrArg List.length huv'
      simp [hk0] at this
      omega
    have hu : u = y.take k := by
      have h1 : (y ++ y).take k = u := by
        rw [huv', ← hk0]
        exact List.take_left u (x ++ v)
      have h2 : (y ++ y).take k = y.take k := by
        rw [List.take_append_eq_append_take, Nat.sub_eq_zero_of_le hk,
          List.take_zero, List.append_nil]
      rw [← h1, h2]
    refine ⟨y.take k, y.drop k, (List.take_append_drop _ y).symm, ?_⟩
    have e1 : y.take k ++ (x ++ v) = y.take k ++ (y.drop k ++ y) := by
      calc y.take k ++ (x ++ v) = u ++ (x ++ v) := by rw [← hu]
        _ = y ++ y := huv'.symm
        _ = (y.take k ++ y.drop k) ++ y := by rw [List.take_append_drop]
        _ = y.take k ++ (y.drop k ++ y) := by rw [List.append_assoc]
    have hcancel : x ++ v = y.drop k ++ y := List.append_cancel_left e1
    have hsplit : x ++ v = (y.drop k ++ y.take k) ++ y.drop k := by
      rw [hcancel]
      calc y.drop k ++ y = y.drop k ++ (y.take k ++ y.drop k) := by
            rw [List.take_append_drop]
        _ = (y.drop k ++ y.take k) ++ y.drop k := by rw [List.append_assoc]
    have hlx : x.length = (y.drop k ++ y.take k).length := by
      rw [List.length_append, List.length_drop, List.length_take,
        Nat.min_eq_left hk, hlen]
      omega
    exact (List.append_inj hsplit hlx).1
  · rintro ⟨u, v, hyuv, hxvu⟩
    apply indexOf?_isSome_of_decomp u v
    rw [hyuv, hxvu]
    simp [List.append_assoc]

/-- Computing `polyrevcomp` on a molecule with empty extensions: only the sequence is
reverse-complemented (and upper-cased by the constructor), the terminal
modifications swap. -/
theorem polyrevcomp_empty_exts {B : Polynucleotide} {RB : List Char}
    (hseq : revcompJs B.sequence = some RB)
    (hB5 : B.ext5 = []) (hB3 : B.ext3 = []) :
    polyrevcomp B = some (mkPolynucleotide RB [] []
      B.isDoubleStranded B.isRNA B.isCircular B.mod_ext3 B.mod_ext5) := by
  unfold polyrevcomp
  rw [hseq, hB5, hB3]
  rfl

/-- C5 (amended): for circular Polynucleotides with matching topology,
strandedness and RNA flags, sequences over the canonical uppercase IUPAC
alphabet *of equal length*, and the circular-molecule invariant of empty
overhangs, the equality comparison returns true exactly when one molecule's
sequence is a rotation of the other's sequence or of its reverse complement —
this is what the doubled-sequence substring test decides. -/
theorem comparePolynucleotides_circular_rotation
    (A B : Polynucleotide)
    (hcA : A.isCircular = true) (hcB : B.isCircular = true)
    (hrna : A.isRNA = B.isRNA) (hds : A.isDoubleStranded = B.isDoubleStranded)
    (hlen : B.sequence.length = A.sequence.length)
    (hA : ∀ c ∈ A.sequence, c ∈ validUpper)
    (hB : ∀ c ∈ B.sequence, c ∈ validUpper)
    (hB5 : B.ext5 = []) (hB3 : B.ext3 = []) :
    (comparePolynucleotides A B = some true ↔
      (isRotationOf B.sequence A.sequence ∨
        ∃ ra, revcompJs A.sequence = some ra ∧ isRotationOf B.sequence ra)) := by
  obtain ⟨RB, hRB⟩ := revcompJs_some_of_valid hB
  obtain ⟨RA, hRA⟩ := revcompJs_some_of_valid hA
  have hRBvalid : ∀ d ∈ RB, d ∈ validUpper := revcompJs_valid hRB hB
  have hcompare : comparePolynucleotides A B = compareCircular A B := by
    unfold comparePolynucleotides
    rw [hcA, hcB, hrna, hds]
    simp
  have hpoly : polyrevcomp B = some (mkPolynucleotide RB [] []
      B.isDoubleStranded B.isRNA B.isCircular B.mod_ext3 B.mod_ext5) :=
    polyrevcomp_empty_exts hRB hB5 hB3
  have hB'seq : (mkPolynucleotide RB [] [] B.isDoubleStranded B.isRNA B.isCircular
      B.mod_ext3 B.mod_ext5).sequence = RB := mapUpper_id hRBvalid
  have hlenB : (B.sequence.map charLower).length =
      (A.sequence.map charLower).length := by
    simp [hlen]
  have hlenRB : (RB.map charLower).length = (A.sequence.map charLower).length := by
    simp [revcompJs_length hRB, hlen]
  have t1iff : ((indexOf? (B.sequence.map charLower)
      (A.sequence.map charLower ++ A.sequence.map charLower)).isSome = true) ↔
      isRotationOf B.sequence A.sequence := by
    rw [substring_doubled_iff hlenB]
    constructor
    · exact isRotationOf_of_map_lower hB hA
    · exact isRotationOf_map charLower
  have t2iff : ((indexOf? (RB.map charLower)
      (A.sequence.map charLower ++ A.sequence.map charLower)).isSome = true) ↔
      isRotationOf B.sequence RA := by
    rw [substring_doubled_iff hlenRB]
    constructor
    · intro h
      exact isRotationOf_revcompJs (revcompJs_inv hRB) hRA
        (isRotationOf_of_map_lower hRBvalid hA h)
    · intro h
      exact isRotationOf_map charLower
        (isRotationOf_revcompJs hRB (revcompJs_inv hRA) h)
  have hcc : compareCircular A B =
      (if (indexOf? (B.sequence.map charLower)
          (A.sequence.map charLower ++ A.sequence.map charLower)).isSome
       then some true
       else if (indexOf? (RB.map charLower)
          (A.sequence.map charLower ++ A.sequence.map charLower)).isSome
       then some true
       else some false) := by
    unfold compareCircular
    simp only [hpoly, hB'seq]
  rw [hcompare, hcc]
  by_cases ht1 : (indexOf? (B.sequence.map charLower)
      (A.sequence.map charLower ++ A.sequence.map charLower)).isSome = true
  · rw [if_pos ht1]
    exact ⟨fun _ => Or.inl (t1iff.mp ht1), fun _ => rfl⟩
  · rw [if_neg ht1]
    by_cases ht2 : (indexOf? (RB.map charLower)
        (A.sequence.map charLower ++ A.sequence.map charLower)).isSome = true
    · rw [if_pos ht2]
      exact ⟨fun _ => Or.inr ⟨RA, hRA, t2iff.mp ht2⟩, fun _ => rfl⟩
    · rw [if_neg ht2]
      constructor
      · intro habs
        simp at habs
      · intro hrot
        rcases hrot with h1 | ⟨ra, hra, h2⟩
        · exact absurd (t1iff.mpr h1) ht1
        · rw [hRA] at hra
          injection hra with e
          subst e
          exact absurd (t2iff.mpr h2) ht2

/-- C5 counterexample: the claim as stated fails when the two circular
molecules have sequences of different lengths.  The circular dsDNA `AT`
compared with the circular dsDNA `A` returns true (the one-base sequence is a
substring of the doubled two-base sequence), yet `A` is not a rotation of
`AT` nor of its reverse complement — rotations preserve length. -/
theorem comparePolynucleotides_circular_counterexample :
    comparePolynucleotides
        ⟨"AT".data, [], [], true, false, true, "", ""⟩
        ⟨"A".data, [], [], true, false, true, "", ""⟩ = some true ∧
      ¬ (isRotationOf "A".data "AT".data ∨
          ∃ ra, revcompJs "AT".data = some ra ∧ isRotationOf "A".data ra) := by
  constructor
  · decide
  · rintro (h1 | ⟨ra, hra, h2⟩)
    · have := isRotationOf_length h1
      simp at this
    · have hra' : revcompJs "AT".data = some "AT".data := by decide
      rw [hra'] at hra
      injection hra with e
      subst e
      have := isRotationOf_length h2
      simp at this

/-- C5 witness: the amended equivalence evaluated on the circular molecules
`ATGC` and `GCAT`, which are genuine rotations of each other. -/
theorem comparePolynucleotides_circular_rotation_witness :
    comparePolynucleotides
        ⟨"ATGC".data, [], [], true, false, true, "", ""⟩
        ⟨"GCAT".data, [], [], true, false, true, "", ""⟩ = some true :=
  (comparePolynucleotides_circular_rotation
      ⟨"ATGC".data, [], [], true, false, true, "", ""⟩
      ⟨"GCAT".data, [], [], true, false, true, "", ""⟩
      rfl rfl rfl rfl (by decide) (by decide) (by decide) rfl rfl).mpr
    (Or.inl ⟨"AT".data, "GC".data, by decide, by decide⟩)

end C6
